import Mathlib

/-!
Verification of the ShieldAI streaming pipeline core.

Shallow embedding of the pure / per-key-stateful logic of the pipeline
stages, translated from the Python sources:

* `src/persistence.py`    — consecutive-anomaly persistence gate
* `src/backtrack.py`      — temporal backtracking attribution
* `src/validation.py`     — input record validation
* `src/alerts.py`         — cooldown-gated alert router
* `src/windowed_stats.py` — sliding-window statistics
* `src/eri.py`            — environmental risk index classification
* `src/attribution.py`    — causal attribution formatter
* `src/metrics.py`        — latency percentile computation

Timestamps are modelled as integers (seconds since an arbitrary epoch);
machine floats are modelled as exact rationals; configuration values (read
from the environment by `src/config.py`) appear as universally quantified
parameters.  Library parsers (`datetime.strptime`, `fromisoformat`,
`fnmatch`) are abstracted as function parameters where only their
success/failure or boolean outcome matters to the verified property.

The file is organised as definitions first, theorems second.
-/

namespace ShieldAI

/-! ### Shared helpers -/

/-- Minimum of a list of rationals, mirroring a fold-based `min` reducer
(0 on the empty list, which never occurs for an emitted window). -/
def listMin : List ℚ → ℚ
  | [] => 0
  | x :: xs => xs.foldl min x

/-- Maximum of a list of rationals, mirroring a fold-based `max` reducer. -/
def listMax : List ℚ → ℚ
  | [] => 0
  | x :: xs => xs.foldl max x

/-- Python `round` on exact rationals: round half to even (banker's
rounding), as CPython's `round` does. -/
def roundHalfEven (q : ℚ) : ℤ :=
  let f := ⌊q⌋
  if q - f < 1/2 then f
  else if 1/2 < q - f then f + 1
  else if f % 2 = 0 then f else f + 1

/-- Python `round(x, 2)` on exact rationals. -/
def round2 (q : ℚ) : ℚ := (roundHalfEven (q * 100) : ℚ) / 100

/-- Python `round(x, 3)` on exact rationals. -/
def round3 (q : ℚ) : ℚ := (roundHalfEven (q * 1000) : ℚ) / 1000

/-- Python `int()` truncation toward zero on exact rationals. -/
def pyInt (q : ℚ) : ℤ := if 0 ≤ q then ⌊q⌋ else -⌊-q⌋

/-! ## Persistence gate (`src/persistence.py`) — definitions

`_SensorStateStore.update` keeps a per-sensor consecutive-anomaly counter:
increment on an anomalous reading, reset to zero otherwise, with a DEBUG
log emitted exactly when a counter strictly above zero is reset.  The
store is a Python dict with default 0, modelled as a total function. -/

namespace Persistence

/-- One scored reading as consumed by the gate: only the sensor id and the
anomaly flag matter to the counter. -/
structure Scored where
  sensor_id  : String
  is_anomaly : Bool
deriving DecidableEq, Repr

/-- The mutable per-sensor counter store (`_SensorStateStore._counts`),
a dict defaulting to 0 on absent keys. -/
structure SensorStateStore where
  counts : String → Int

/-- The empty store `_SensorStateStore.__init__` starts from. -/
def SensorStateStore.init : SensorStateStore := ⟨fun _ => 0⟩

/-- Embedding of `_SensorStateStore.update`: returns the updated store, the
new count, and whether the reset DEBUG log fired (`current > 0` on a
non-anomalous reading). -/
def SensorStateStore.update (s : SensorStateStore) (sensor_id : String)
    (is_anomaly : Bool) : SensorStateStore × Int × Bool :=
  let current := s.counts sensor_id
  let reset_logged := !is_anomaly && decide (0 < current)
  let new_count := if is_anomaly then current + 1 else 0
  (⟨fun j => if j = sensor_id then new_count else s.counts j⟩, new_count, reset_logged)

/-- Observable outcome of one `update` call: the reading, the counter value
before and after, and whether the reset log fired. -/
structure StepOut where
  sensor_id  : String
  is_anomaly : Bool
  prior      : Int
  count      : Int
  reset      : Bool
deriving DecidableEq, Repr

/-- Run the store over a stream of scored readings (the order Pathway feeds
`_compute_consecutive_count`), recording each step's outcome. -/
def runSteps : SensorStateStore → List Scored → List StepOut
  | _, [] => []
  | s, r :: rest =>
    let prior := s.counts r.sensor_id
    let out := s.update r.sensor_id r.is_anomaly
    ⟨r.sensor_id, r.is_anomaly, prior, out.2.1, out.2.2⟩ :: runSteps out.1 rest

/-- Embedding of `_is_confirmed`: the streak meets or exceeds
`PERSISTENCE_COUNT`. -/
def is_confirmed (persistence_count count : Int) : Bool :=
  count ≥ persistence_count

/-- Embedding of `build_confirmed_anomalies`: attach the consecutive count,
then keep only the rows `_is_confirmed` accepts. -/
def build_confirmed_anomalies (persistence_count : Int) (rows : List Scored) :
    List StepOut :=
  (runSteps SensorStateStore.init rows).filter
    (fun st => is_confirmed persistence_count st.count)

end Persistence

/-! ## Temporal backtrack (`src/backtrack.py`) — definitions

`attribute_event` parses the CETP shock time `T` in the fixed
`YYYY-MM-DD HH:MM` format, computes `T_backtrack = T − travel_minutes`,
filters the pre-loaded factory index to rows whose time lies within
`±tolerance_seconds` of `T_backtrack`, and attributes the row
`window_rows.loc[window_rows["cod"].idxmax()]` — the FIRST row of the
window (in index order) attaining the maximal cod.  Times are modelled
as seconds; both the parsed `T` and `T_backtrack` are whole minutes, so
the `strftime("%Y-%m-%d %H:%M")` round-trip loses nothing and formatting
is modelled by the identity on the integer time. -/

namespace Backtrack

/-- One row of the eagerly loaded factory index (`build_factory_index`
output, after `dropna(subset=["cod"])`): cod is always present, the
auxiliary channels may be null. -/
structure FactoryRow where
  factory_id : String
  time       : Int
  cod        : ℚ
  bod        : Option ℚ
  ph         : Option ℚ
  tss        : Option ℚ
deriving DecidableEq, Repr

/-- The evidence dictionary returned by `attribute_event`. -/
structure Evidence where
  attributed_factory : Option String
  factory_cod        : Option ℚ
  factory_bod        : Option ℚ
  factory_tss        : Option ℚ
  backtrack_time     : Int
deriving DecidableEq, Repr

/-- Membership of a factory row in the backtrack search window
`[t_lower, t_upper]` (both bounds inclusive, as in the pandas mask). -/
def inWindow (t_lower t_upper : Int) (row : FactoryRow) : Bool :=
  decide (t_lower ≤ row.time) && decide (row.time ≤ t_upper)

/-- Keep the earlier row `x` unless a later candidate has strictly
larger cod (the tie behaviour of pandas `idxmax`). -/
def pickFirst (x : FactoryRow) : Option FactoryRow → FactoryRow
  | Option.none => x
  | Option.some b => if x.cod < b.cod then b else x

/-- Embedding of `window_rows.loc[window_rows["cod"].idxmax()]`:
pandas `idxmax` returns the first occurrence of the maximum, so the
earlier row wins ties. -/
def firstMaxCod : List FactoryRow → Option FactoryRow
  | [] => Option.none
  | x :: rest => Option.some (pickFirst x (firstMaxCod rest))

/-- Embedding of `attribute_event` for a shock whose `cetp_time` parses:
`cetp_time` is the parsed event time in seconds (a whole minute). -/
def attribute_event (cetp_time : Int) (factory_index : List FactoryRow)
    (travel_minutes tolerance_seconds : Int) : Evidence :=
  let t_backtrack := cetp_time - travel_minutes * 60
  let t_lower := t_backtrack - tolerance_seconds
  let t_upper := t_backtrack + tolerance_seconds
  let window_rows := factory_index.filter (inWindow t_lower t_upper)
  match firstMaxCod window_rows with
  | Option.none =>
    ⟨Option.none, Option.none, Option.none, Option.none, t_backtrack⟩
  | Option.some best =>
    ⟨Option.some best.factory_id, Option.some (round2 best.cod),
     best.bod.map round2, best.tss.map round2, t_backtrack⟩

/-- Selection rule as the specification words it (used to refute the
claimed tie-break): maximal cod, then latest timestamp, then
lexicographically smallest factory_id.  `specBetter a b` holds when `b`
is preferred over `a` under that rule. -/
def specBetter (a b : FactoryRow) : Bool :=
  decide (a.cod < b.cod) ||
    (decide (a.cod = b.cod) &&
      (decide (a.time < b.time) ||
        (decide (a.time = b.time) && decide (b.factory_id < a.factory_id))))

/-- The row the specification's tie-break rule would select from a window. -/
def specSelect : List FactoryRow → Option FactoryRow
  | [] => Option.none
  | x :: rest =>
    match specSelect rest with
    | Option.none => Option.some x
    | Option.some b => if specBetter x b then Option.some b else Option.some x

/-- Concrete index row used to exhibit the tie-break divergence. -/
def exRowA : FactoryRow :=
  ⟨"A", 0, 10, Option.none, Option.none, Option.none⟩

/-- Concrete index row with the same cod as `exRowA` but a later time. -/
def exRowB : FactoryRow :=
  ⟨"B", 60, 10, Option.none, Option.none, Option.none⟩

/-- Concrete two-row factory index, sorted by time ascending. -/
def exIdx : List FactoryRow := [exRowA, exRowB]

end Backtrack

/-! ## Input validation (`src/validation.py`) — definitions

`validate_record` inspects a raw Python dict.  The dynamic values a
record can carry are modelled by `PyVal`; Python `bool` values are
represented as `vInt 0/1` (Python's `bool` is a subclass of `int`, and
`validate_record` only ever treats them as ints).  A key that is absent
and a key bound to `None` are both modelled by `vNone`, matching the
`record.get(k) is None` tests.  The library parsers
`datetime.fromisoformat` (after the `Z` replacement), `float(str)` and
`fnmatch.fnmatch` are abstracted as boolean-valued configuration
parameters. -/

namespace Validation

/-- A Python float: either a finite value (modelled exactly) or one of
the non-finite values `nan` / `±inf`. -/
inductive NumVal where
  | fin (q : ℚ)
  | nan
  | inf (neg : Bool)
deriving DecidableEq, Repr

/-- A dynamic Python value as far as `validate_record` distinguishes
them. `vOther tag` stands for any non-None, non-str, non-numeric value
(list, dict, ...) whose type name is `tag`. -/
inductive PyVal where
  | vNone
  | vStr (s : String)
  | vInt (n : Int)
  | vFloat (v : NumVal)
  | vOther (tag : String)
deriving DecidableEq, Repr

/-- Python `type(x).__name__` for the modelled values (used in reasons). -/
def PyVal.typeName : PyVal → String
  | .vNone => "NoneType"
  | .vStr _ => "str"
  | .vInt _ => "int"
  | .vFloat _ => "float"
  | .vOther tag => tag

/-- `isinstance(x, str)`. -/
def PyVal.isStr : PyVal → Bool
  | .vStr _ => true
  | _ => false

/-- The carried string (only meaningful when `isStr`). -/
def PyVal.strVal : PyVal → String
  | .vStr s => s
  | _ => ""

/-- `isinstance(x, (int, float))`. -/
def PyVal.isNum : PyVal → Bool
  | .vInt _ => true
  | .vFloat _ => true
  | _ => false

/-- `math.isfinite(x)` on a numeric value. -/
def PyVal.isFiniteNum : PyVal → Bool
  | .vInt _ => true
  | .vFloat (.fin _) => true
  | _ => false

/-- `float(x)` for a finite numeric value (the only place the code calls
it, after the finiteness check has passed). -/
def PyVal.floatVal : PyVal → ℚ
  | .vInt n => (n : ℚ)
  | .vFloat (.fin q) => q
  | _ => 0

/-- The three fields `validate_record` reads from the record dict;
`vNone` covers both an absent key and an explicit `None`. -/
structure Record where
  sensor_id : PyVal
  timestamp : PyVal
  value     : PyVal
deriving DecidableEq, Repr

/-- Configuration and abstracted library predicates: `max_sensor_id_length`
and the ordered `sensor_value_range` pattern map come from `CONFIG`;
`fnmatch sid pattern` models `fnmatch.fnmatch(sensor_id, pattern)`;
`iso_ok s` models success of
`datetime.fromisoformat(s.replace("Z", "+00:00"))`; `float_ok s` models
success of `float(s)`. -/
structure ValConfig where
  max_sensor_id_length : Nat
  sensor_value_range   : List (String × ℚ × ℚ)
  fnmatch              : String → String → Bool
  iso_ok               : String → Bool
  float_ok             : String → Bool

/-- Timestamp validity per step 4 of `validate_record`: a numeric epoch,
or a string that parses as ISO 8601 or as a float. -/
def ts_valid (cfg : ValConfig) : PyVal → Bool
  | .vInt _ => true
  | .vFloat _ => true
  | .vStr s => cfg.iso_ok s || cfg.float_ok s
  | _ => false

/-- First entry of `sensor_value_range` whose pattern matches the sensor
id (the loop with `break` in step 5). -/
def first_matching_range (cfg : ValConfig) (sid : String) : Option (ℚ × ℚ) :=
  match cfg.sensor_value_range.find? (fun e => cfg.fnmatch sid e.1) with
  | Option.some e => Option.some e.2
  | Option.none => Option.none

/-- Embedding of `validate_record`: the early-return chain of checks.
The Python reason strings carry quote characters and interpolated
values (type names, lengths, bounds); only their (non-)emptiness
matters downstream, so the interpolations are elided here. -/
def validate_record (cfg : ValConfig) (r : Record) : Bool × String :=
  if r.sensor_id = PyVal.vNone then (false, "missing sensor_id")
  else if r.timestamp = PyVal.vNone then (false, "missing timestamp")
  else if r.value = PyVal.vNone then (false, "missing value")
  else if !r.sensor_id.isStr || r.sensor_id.strVal.trim = "" then
    (false, "invalid sensor_id type/content")
  else if cfg.max_sensor_id_length < r.sensor_id.strVal.length then
    (false, "sensor_id exceeds max length")
  else if !r.value.isNum then
    (false, "value must be numeric")
  else if !r.value.isFiniteNum then
    (false, "value must be finite")
  else if !ts_valid cfg r.timestamp then
    (false, "invalid timestamp format")
  else
    match first_matching_range cfg r.sensor_id.strVal with
    | Option.none => (true, "")
    | Option.some (v_min, v_max) =>
      if !(decide (v_min ≤ r.value.floatVal) && decide (r.value.floatVal ≤ v_max)) then
        (false, "value out of range")
      else (true, "")

/-- The specification's rejection conditions, written as one unordered
disjunction (spec section 4.1): missing field; bad sensor_id; non-numeric
or non-finite value; unparseable timestamp; value outside the first
matching range. -/
def spec_rejects (cfg : ValConfig) (r : Record) : Bool :=
  r.sensor_id = PyVal.vNone || r.timestamp = PyVal.vNone || r.value = PyVal.vNone ||
  !r.sensor_id.isStr || r.sensor_id.strVal.trim = "" ||
  decide (cfg.max_sensor_id_length < r.sensor_id.strVal.length) ||
  !r.value.isNum || !r.value.isFiniteNum ||
  !ts_valid cfg r.timestamp ||
  (match first_matching_range cfg r.sensor_id.strVal with
   | Option.none => false
   | Option.some (v_min, v_max) =>
     !(decide (v_min ≤ r.value.floatVal) && decide (r.value.floatVal ≤ v_max)))

end Validation

/-! ## Alert router cooldown (`src/alerts.py`) — definitions

`_CooldownStore` keeps the last emitted alert time per discharge point;
`_udf_not_in_cooldown` consults `can_alert` and, on pass, records the
row's timestamp.  `datetime.strptime(timestamp, fmt)` is abstracted as a
parameter `parse : String → Option Int` returning seconds on success. -/

namespace Alerts

/-- The two columns of an ERI row the cooldown gate reads. -/
structure AlertRow where
  discharge_point_id : String
  timestamp          : String
deriving DecidableEq, Repr

/-- The `_CooldownStore._last_alert` dict. -/
structure CooldownStore where
  last_alert : String → Option Int

/-- The empty store. -/
def CooldownStore.init : CooldownStore := ⟨fun _ => Option.none⟩

/-- Embedding of `_CooldownStore.can_alert`. -/
def can_alert (cooldown : Int) (parse : String → Option Int)
    (s : CooldownStore) (id ts : String) : Bool :=
  if cooldown = 0 then true
  else
    match parse ts with
    | Option.none => true
    | Option.some now =>
      match s.last_alert id with
      | Option.none => true
      | Option.some last => decide (cooldown ≤ now - last)

/-- Embedding of `_CooldownStore.record`: store the parsed time, leave
the previous entry intact on a bad timestamp. -/
def record_alert (parse : String → Option Int) (s : CooldownStore)
    (id ts : String) : CooldownStore :=
  match parse ts with
  | Option.none => s
  | Option.some t => ⟨fun j => if j = id then Option.some t else s.last_alert j⟩

/-- Embedding of `_udf_not_in_cooldown`: pass/fail decision plus the
updated store. -/
def step (cooldown : Int) (parse : String → Option Int)
    (s : CooldownStore) (row : AlertRow) : CooldownStore × Bool :=
  if can_alert cooldown parse s row.discharge_point_id row.timestamp then
    (record_alert parse s row.discharge_point_id row.timestamp, true)
  else (s, false)

/-- Run the cooldown gate over the band-filtered stream in event order,
recording each row's pass/fail decision. -/
def process (cooldown : Int) (parse : String → Option Int) :
    CooldownStore → List AlertRow → List (AlertRow × Bool)
  | _, [] => []
  | s, r :: rest =>
    let out := step cooldown parse s r
    (r, out.2) :: process cooldown parse out.1 rest

/-- Parsed timestamps of the emitted alerts for one discharge point, in
emission order, starting from the given store. -/
def pointTimes (cooldown : Int) (parse : String → Option Int) (p : String)
    (s : CooldownStore) (rows : List AlertRow) : List Int :=
  (process cooldown parse s rows).filterMap
    (fun rd =>
      if rd.2 && (rd.1.discharge_point_id == p) then parse rd.1.timestamp
      else Option.none)

/-- Parsed timestamps of the emitted alerts for one discharge point over
a whole run from the empty store. -/
def emittedTimes (cooldown : Int) (parse : String → Option Int) (p : String)
    (rows : List AlertRow) : List Int :=
  pointTimes cooldown parse p CooldownStore.init rows

end Alerts

/-! ## Windowed statistics (`src/windowed_stats.py`) — definitions

`_build_windowed_aggregates` reduces one (sensor, window) group to
`avg(value)`, `avg(value²)`, `min`, `max` and `count`; `_population_std`
derives `sqrt(max(0, E[X²] − E[X]²)) + ε`.  One emitted window is
modelled by the list of values it contains (non-empty: Pathway only
emits windows holding at least one row). -/

namespace WindowedStats

/-- The raw reducer outputs for one (sensor, window) group. -/
structure WindowAgg where
  mean         : ℚ
  mean_sq      : ℚ
  wmin         : ℚ
  wmax         : ℚ
  sample_count : Nat
deriving DecidableEq, Repr

/-- Embedding of the `reduce` step of `_build_windowed_aggregates` on the
values of one window. -/
def build_windowed_aggregates (values : List ℚ) : WindowAgg :=
  { mean := values.sum / values.length
    mean_sq := (values.map (fun x => x * x)).sum / values.length
    wmin := listMin values
    wmax := listMax values
    sample_count := values.length }

/-- Embedding of `_population_std`:
`sqrt(max(0, mean_sq − mean²)) + EPSILON`. -/
noncomputable def population_std (mean mean_sq eps : ℝ) : ℝ :=
  Real.sqrt (max 0 (mean_sq - mean * mean)) + eps

end WindowedStats

/-! ## ERI risk bands (`src/eri.py`) — definitions -/

namespace Eri

/-- Embedding of `classify_eri`: walk the sorted `(upper_bound, band)`
list, return the first band whose bound exceeds the value, else
CRITICAL. -/
def classify_eri (thresholds : List (ℚ × String)) (eri_value : ℚ) : String :=
  match thresholds with
  | [] => "CRITICAL"
  | (upper_bound, band) :: rest =>
    if eri_value < upper_bound then band else classify_eri rest eri_value

/-- The `CONFIG["ERI_THRESHOLDS"]` list built from the three configured
thresholds. -/
def eriThresholds (low med high : ℚ) : List (ℚ × String) :=
  [(low, "LOW"), (med, "MEDIUM"), (high, "HIGH")]

/-- Band rank per `RISK_BAND_ORDER` in `src/alerts.py`
(LOW 0, MEDIUM 1, HIGH 2, CRITICAL 3). -/
def rank (band : String) : Nat :=
  if band = "LOW" then 0
  else if band = "MEDIUM" then 1
  else if band = "HIGH" then 2
  else 3

end Eri

/-! ## Attribution formatter (`src/attribution.py`) — definitions

`format_alert` is pure: it computes each contributing sensor's z² share,
sorts descending, takes the head as top contributor, and returns a new
dict forwarding every original key.  The `sensor_z_scores` dict is
modelled as an ordered association list (Python dicts preserve insertion
order); all other keys of the row are modelled by an opaque `others`
association list, forwarded verbatim. -/

namespace Attribution

/-- Descending-by-fraction order used by
`sorted(key=pair.1, reverse=True)`. -/
def fracGe (a b : String × ℚ) : Prop := b.2 ≤ a.2

instance : DecidableRel fracGe := fun a b => inferInstanceAs (Decidable (b.2 ≤ a.2))

instance : IsTotal (String × ℚ) fracGe := ⟨fun a b => le_total b.2 a.2⟩

instance : IsTrans (String × ℚ) fracGe :=
  ⟨fun _ _ _ h1 h2 => le_trans h2 h1⟩

/-- Embedding of `_compute_fractions`: z² shares of the total, equal
shares when the total is zero. -/
def compute_fractions (sensor_z_scores : List (String × ℚ)) : List (String × ℚ) :=
  let z_sq := sensor_z_scores.map (fun p => (p.1, p.2 * p.2))
  let total := (z_sq.map Prod.snd).sum
  if total = 0 then
    z_sq.map (fun p => (p.1, if 0 < z_sq.length then (1 : ℚ) / z_sq.length else 0))
  else
    z_sq.map (fun p => (p.1, p.2 / total))

/-- Embedding of `_sort_descending`: Python's stable sort, descending by
fraction. -/
def sort_descending (fractions : List (String × ℚ)) : List (String × ℚ) :=
  List.insertionSort fracGe fractions

/-- Embedding of `_top_contributor`: head pair, or `("", 0.0)` when no
sensors contributed. -/
def top_contributor (sorted_pairs : List (String × ℚ)) : String × ℚ :=
  sorted_pairs.headD ("", 0)

/-- The group-anomaly row `format_alert` consumes: the keys it reads,
plus all remaining keys as an opaque association list. -/
structure GroupRow where
  group_name      : String
  sensor_z_scores : List (String × ℚ)
  composite_score : ℚ
  others          : List (String × String)
deriving DecidableEq, Repr

/-- The enriched row `format_alert` returns: the input row (all original
keys) plus the three added fields.  `attribution_detail` is the JSON
object content — the sorted `(sensor, 3-dp fraction)` pairs in order. -/
structure AlertOut where
  row                : GroupRow
  top_contributor    : String
  attribution_detail : List (String × ℚ)
  alert_message      : String
deriving DecidableEq, Repr

/-- Embedding of `format_alert`.  Purity of the Python function (the
input dict is not mutated; a fresh dict is returned) is inherent in the
functional embedding; key forwarding is captured by returning `row`
unchanged inside the output. -/
def format_alert (row : GroupRow) : AlertOut :=
  let fractions := compute_fractions row.sensor_z_scores
  let sorted_pairs := sort_descending fractions
  let top := top_contributor sorted_pairs
  { row := row
    top_contributor := top.1
    attribution_detail := sorted_pairs.map (fun p => (p.1, round3 p.2))
    alert_message :=
      "Anomaly in " ++ row.group_name ++ ": primary driver " ++ top.1 ++
        " (" ++ toString (roundHalfEven (top.2 * 100)) ++ "% of score)" }

end Attribution

/-! ## Latency metrics (`src/metrics.py`) — definitions -/

namespace Metrics

/-- Embedding of `compute_percentile`: sort ascending, then linearly
interpolate between the two adjacent sorted positions
(`numpy.percentile(method="linear")` style); 0.0 on an empty sequence. -/
def compute_percentile (data : List ℚ) (percentile : ℚ) : ℚ :=
  if data = [] then 0
  else
    let sorted_data := List.insertionSort (· ≤ ·) data
    let n := sorted_data.length
    if n = 1 then sorted_data.headD 0
    else
      let k := percentile / 100 * ((n : ℚ) - 1)
      let lo := pyInt k
      let hi := min (lo + 1) ((n : Int) - 1)
      sorted_data.getD lo.toNat 0 * (1 - (k - (lo : ℚ))) +
        sorted_data.getD hi.toNat 0 * (k - (lo : ℚ))

end Metrics

/-! # Theorems -/

/-! ## Persistence gate — theorems (claims C4 and C5) -/

namespace Persistence

/-- Counter non-negativity is preserved along a run. -/
theorem runSteps_nonneg (rows : List Scored) (s : SensorStateStore)
    (hs : ∀ id, 0 ≤ s.counts id) :
    ∀ st ∈ runSteps s rows, 0 ≤ st.prior ∧ 0 ≤ st.count := by
  induction rows generalizing s with
  | nil => intro st h; simp [runSteps] at h
  | cons r rest ih =>
    intro st hmem
    simp only [runSteps, List.mem_cons] at hmem
    rcases hmem with h | h
    · subst h
      refine ⟨hs r.sensor_id, ?_⟩
      simp only [SensorStateStore.update]
      split
      · have := hs r.sensor_id; omega
      · omega
    · refine ih _ ?_ st h
      intro id
      simp only [SensorStateStore.update]
      split
      · split
        · have := hs r.sensor_id; omega
        · omega
      · exact hs id

/-- Counters grow by at most one per processed row. -/
theorem runSteps_bounded (rows : List Scored) (s : SensorStateStore) (B : Int)
    (hB : 0 ≤ B) (hs : ∀ id, s.counts id ≤ B) :
    ∀ st ∈ runSteps s rows, st.count ≤ B + rows.length := by
  induction rows generalizing s B with
  | nil => intro st h; simp [runSteps] at h
  | cons r rest ih =>
    intro st hmem
    simp only [runSteps, List.mem_cons] at hmem
    rcases hmem with h | h
    · subst h
      simp only [SensorStateStore.update, List.length_cons]
      split
      · have := hs r.sensor_id; omega
      · omega
    · have hb : ∀ id,
          (s.update r.sensor_id r.is_anomaly).1.counts id ≤ B + 1 := by
        intro id
        simp only [SensorStateStore.update]
        split
        · split
          · have := hs r.sensor_id; omega
          · omega
        · have := hs id; omega
      have := ih _ (B + 1) (by omega) hb st h
      simp only [List.length_cons]
      omega

/-- Each step's outputs are determined by the prior counter and the flag
exactly as `_SensorStateStore.update` computes them. -/
theorem runSteps_step_spec (rows : List Scored) (s : SensorStateStore) :
    ∀ st ∈ runSteps s rows,
      st.count = (if st.is_anomaly = true then st.prior + 1 else 0) ∧
      st.reset = (!st.is_anomaly && decide (0 < st.prior)) := by
  induction rows generalizing s with
  | nil => intro st h; simp [runSteps] at h
  | cons r rest ih =>
    intro st hmem
    simp only [runSteps, List.mem_cons] at hmem
    rcases hmem with h | h
    · subst h
      simp [SensorStateStore.update]
    · exact ih _ st h

/-- C4: for every per-sensor sequence of scored readings processed in
order, the persistence counter is never negative; it resets to 0 exactly
when the current reading is non-anomalous and the prior counter was
positive (the reset DEBUG log fires exactly then), incrementing by 1 on
every anomalous reading; and a reading is forwarded to the
confirmed-anomaly output iff its streak count after the update is at
least PERSISTENCE_COUNT. -/
theorem persistence_gate_c4 (rows : List Scored) (persistence_count : Int)
    (st : StepOut) (hmem : st ∈ runSteps SensorStateStore.init rows) :
    0 ≤ st.count ∧ 0 ≤ st.prior ∧
    (st.reset = true ↔ (st.is_anomaly = false ∧ 0 < st.prior)) ∧
    (st.is_anomaly = true → st.count = st.prior + 1) ∧
    ((st.count = 0 ∧ 0 < st.prior) ↔ (st.is_anomaly = false ∧ 0 < st.prior)) ∧
    (st ∈ build_confirmed_anomalies persistence_count rows ↔
      persistence_count ≤ st.count) := by
  have hnn := runSteps_nonneg rows SensorStateStore.init
    (fun _ => le_refl 0) st hmem
  have hspec := runSteps_step_spec rows SensorStateStore.init st hmem
  refine ⟨hnn.2, hnn.1, ?_, ?_, ?_, ?_⟩
  · rw [hspec.2]
    cases h : st.is_anomaly <;> simp
  · intro h; rw [hspec.1, if_pos h]
  · constructor
    · rintro ⟨hc, hp⟩
      refine ⟨?_, hp⟩
      cases h : st.is_anomaly
      · rfl
      · rw [hspec.1, if_pos h] at hc; omega
    · rintro ⟨ha, hp⟩
      refine ⟨?_, hp⟩
      rw [hspec.1, if_neg (by simp [ha])]
  · rw [build_confirmed_anomalies, List.mem_filter]
    simp only [is_confirmed, hmem, true_and, ge_iff_le, decide_eq_true_eq]

/-- Witness for C4: the single anomalous reading of sensor S1 yields the
step (prior 0, count 1, no reset), confirmed at threshold 1. -/
theorem persistence_gate_c4_witness :
    0 ≤ (⟨"S1", true, 0, 1, false⟩ : StepOut).count ∧
    0 ≤ (⟨"S1", true, 0, 1, false⟩ : StepOut).prior ∧
    ((⟨"S1", true, 0, 1, false⟩ : StepOut).reset = true ↔
      ((⟨"S1", true, 0, 1, false⟩ : StepOut).is_anomaly = false ∧
        0 < (⟨"S1", true, 0, 1, false⟩ : StepOut).prior)) ∧
    ((⟨"S1", true, 0, 1, false⟩ : StepOut).is_anomaly = true →
      (⟨"S1", true, 0, 1, false⟩ : StepOut).count =
        (⟨"S1", true, 0, 1, false⟩ : StepOut).prior + 1) ∧
    (((⟨"S1", true, 0, 1, false⟩ : StepOut).count = 0 ∧
        0 < (⟨"S1", true, 0, 1, false⟩ : StepOut).prior) ↔
      ((⟨"S1", true, 0, 1, false⟩ : StepOut).is_anomaly = false ∧
        0 < (⟨"S1", true, 0, 1, false⟩ : StepOut).prior)) ∧
    ((⟨"S1", true, 0, 1, false⟩ : StepOut) ∈
        build_confirmed_anomalies 1 [⟨"S1", true⟩] ↔
      1 ≤ (⟨"S1", true, 0, 1, false⟩ : StepOut).count) :=
  persistence_gate_c4 [⟨"S1", true⟩] 1 ⟨"S1", true, 0, 1, false⟩ (by decide)

/-- C5 counterexample: with the default PERSISTENCE_COUNT of 3, four
consecutive anomalous readings drive the counter to 4 > 3, so the
counter does not stay within [0, K]. -/
theorem persistence_bound_c5_counterexample :
    ∃ st ∈ runSteps SensorStateStore.init
      [⟨"S1", true⟩, ⟨"S1", true⟩, ⟨"S1", true⟩, ⟨"S1", true⟩],
      ¬ st.count ≤ 3 := by decide

/-- C5 amended: the per-sensor persistence counter stays within
[0, number of readings processed]; it is never negative but is not
bounded above by PERSISTENCE_COUNT — after n consecutive anomalies it
equals n. -/
theorem persistence_bound_c5 (rows : List Scored) (st : StepOut)
    (hmem : st ∈ runSteps SensorStateStore.init rows) :
    0 ≤ st.count ∧ st.count ≤ rows.length := by
  refine ⟨(runSteps_nonneg rows SensorStateStore.init
    (fun _ => le_refl 0) st hmem).2, ?_⟩
  have := runSteps_bounded rows SensorStateStore.init 0 le_rfl
    (fun _ => le_rfl) st hmem
  omega

/-- Witness for the amended C5 at a concrete two-reading run. -/
theorem persistence_bound_c5_witness :
    0 ≤ (⟨"S1", true, 1, 2, false⟩ : StepOut).count ∧
    (⟨"S1", true, 1, 2, false⟩ : StepOut).count ≤
      ([⟨"S1", true⟩, ⟨"S1", true⟩] : List Scored).length :=
  persistence_bound_c5 [⟨"S1", true⟩, ⟨"S1", true⟩]
    ⟨"S1", true, 1, 2, false⟩ (by decide)

end Persistence

/-! ## Temporal backtrack — theorems (claims C1 and C2) -/

namespace Backtrack

/-- `firstMaxCod` returns none exactly on the empty window. -/
theorem firstMaxCod_eq_none (l : List FactoryRow) :
    firstMaxCod l = Option.none ↔ l = [] := by
  cases l <;> simp [firstMaxCod]

/-- The row `firstMaxCod` selects belongs to the window. -/
theorem firstMaxCod_mem (l : List FactoryRow) (r : FactoryRow)
    (h : firstMaxCod l = Option.some r) : r ∈ l := by
  induction l generalizing r with
  | nil => simp [firstMaxCod] at h
  | cons x rest ih =>
    simp only [firstMaxCod, Option.some.injEq] at h
    cases hr : firstMaxCod rest with
    | none => rw [hr] at h; simp only [pickFirst] at h; simp [← h]
    | some b =>
      rw [hr] at h
      simp only [pickFirst] at h
      by_cases hc : x.cod < b.cod
      · rw [if_pos hc] at h
        exact List.mem_cons_of_mem x (h ▸ ih b hr)
      · rw [if_neg hc] at h
        simp [← h]

/-- The row `firstMaxCod` selects has maximal cod over the window. -/
theorem firstMaxCod_le (l : List FactoryRow) (r : FactoryRow)
    (h : firstMaxCod l = Option.some r) : ∀ x ∈ l, x.cod ≤ r.cod := by
  induction l generalizing r with
  | nil => simp [firstMaxCod] at h
  | cons x rest ih =>
    simp only [firstMaxCod, Option.some.injEq] at h
    intro y hy
    rcases List.mem_cons.mp hy with hyx | hyr
    · subst hyx
      cases hr : firstMaxCod rest with
      | none => rw [hr] at h; simp only [pickFirst] at h; rw [← h]
      | some b =>
        rw [hr] at h
        simp only [pickFirst] at h
        by_cases hc : y.cod < b.cod
        · rw [if_pos hc] at h
          rw [← h]; exact le_of_lt hc
        · rw [if_neg hc] at h
          rw [← h]
    · cases hr : firstMaxCod rest with
      | none =>
        rw [(firstMaxCod_eq_none rest).mp hr] at hyr
        simp at hyr
      | some b =>
        rw [hr] at h
        simp only [pickFirst] at h
        by_cases hc : x.cod < b.cod
        · rw [if_pos hc] at h
          exact h ▸ ih b hr y hyr
        · rw [if_neg hc] at h
          calc y.cod ≤ b.cod := ih b hr y hyr
            _ ≤ x.cod := not_lt.mp hc
            _ = r.cod := by rw [← h]

/-- `firstMaxCod` selects the FIRST maximal row: every row before it in
the window has strictly smaller cod. -/
theorem firstMaxCod_first (l : List FactoryRow) (r : FactoryRow)
    (h : firstMaxCod l = Option.some r) :
    ∃ l1 l2, l = l1 ++ r :: l2 ∧ ∀ x ∈ l1, x.cod < r.cod := by
  induction l generalizing r with
  | nil => simp [firstMaxCod] at h
  | cons x rest ih =>
    simp only [firstMaxCod, Option.some.injEq] at h
    cases hr : firstMaxCod rest with
    | none =>
      rw [hr] at h
      simp only [pickFirst] at h
      exact ⟨[], rest, by simp [h], by simp⟩
    | some b =>
      rw [hr] at h
      simp only [pickFirst] at h
      by_cases hc : x.cod < b.cod
      · rw [if_pos hc] at h
        subst h
        obtain ⟨l1, l2, hsplit, hlt⟩ := ih b hr
        refine ⟨x :: l1, l2, by simp [hsplit], ?_⟩
        intro y hy
        rcases List.mem_cons.mp hy with hyx | hyl
        · exact hyx ▸ hc
        · exact hlt y hyl
      · rw [if_neg hc] at h
        exact ⟨[], rest, by simp [h], by simp⟩

/-- C1: for a shock event whose cetp_time parses, `attribute_event`
returns all-null attribution when no index row falls in
[T − travel − tol, T − travel + tol], and otherwise attributes a row of
the window whose cod is maximal over the window; in both cases
backtrack_time is T − travel (minute-formatted, modelled by the integer
time itself). -/
theorem backtrack_c1 (t travel tol : Int) (idx : List FactoryRow) :
    (attribute_event t idx travel tol).backtrack_time = t - travel * 60 ∧
    (idx.filter (inWindow (t - travel * 60 - tol) (t - travel * 60 + tol)) = [] →
      attribute_event t idx travel tol =
        ⟨Option.none, Option.none, Option.none, Option.none, t - travel * 60⟩) ∧
    (idx.filter (inWindow (t - travel * 60 - tol) (t - travel * 60 + tol)) ≠ [] →
      ∃ r ∈ idx,
        inWindow (t - travel * 60 - tol) (t - travel * 60 + tol) r = true ∧
        (∀ x ∈ idx,
          inWindow (t - travel * 60 - tol) (t - travel * 60 + tol) x = true →
            x.cod ≤ r.cod) ∧
        (attribute_event t idx travel tol).attributed_factory =
          Option.some r.factory_id ∧
        (attribute_event t idx travel tol).factory_cod =
          Option.some (round2 r.cod)) := by
  cases hw : firstMaxCod
      (idx.filter (inWindow (t - travel * 60 - tol) (t - travel * 60 + tol))) with
  | none =>
    have hempty := (firstMaxCod_eq_none _).mp hw
    refine ⟨?_, fun _ => ?_, fun hne => absurd hempty hne⟩ <;>
      simp [attribute_event, hempty, firstMaxCod]
  | some best =>
    have hmem := firstMaxCod_mem _ _ hw
    have hmax := firstMaxCod_le _ _ hw
    have hbest_idx := (List.mem_filter.mp hmem).1
    have hbest_win := (List.mem_filter.mp hmem).2
    refine ⟨?_, fun hempty => ?_, fun _ => ?_⟩
    · simp only [attribute_event]
      rw [hw]
    · rw [hempty] at hw; simp [firstMaxCod] at hw
    · refine ⟨best, hbest_idx, hbest_win, ?_, ?_, ?_⟩
      · intro x hx hxw
        exact hmax x (List.mem_filter.mpr ⟨hx, hxw⟩)
      · simp only [attribute_event]
        rw [hw]
      · simp only [attribute_event]
        rw [hw]

/-- C2 counterexample: two index rows share the maximal cod; the
specification's tie-break (latest timestamp) selects row B, but
`attribute_event` (pandas `idxmax`, first occurrence in the
time-ascending index) attributes row A, the EARLIEST one. -/
theorem backtrack_c2_counterexample :
    specSelect (exIdx.filter
      (inWindow (960 - 15 * 60 - 120) (960 - 15 * 60 + 120))) =
        Option.some exRowB ∧
    (attribute_event 960 exIdx 15 120).attributed_factory =
      Option.some "A" ∧
    exRowA.cod = exRowB.cod ∧ exRowA.time < exRowB.time ∧
    exRowB.factory_id ≠ "A" := by decide

/-- C2 amended: on a time-ascending index, when the backtrack window is
non-empty `attribute_event` attributes the FIRST window row attaining
the maximal cod — a row with the EARLIEST timestamp among the maximal
rows (pandas `idxmax` takes the first occurrence); no factory_id
tie-break is applied. -/
theorem backtrack_c2_amended (t travel tol : Int) (idx : List FactoryRow)
    (hsorted : List.Pairwise (fun a b => a.time ≤ b.time) idx)
    (hne : idx.filter
      (inWindow (t - travel * 60 - tol) (t - travel * 60 + tol)) ≠ []) :
    ∃ r ∈ idx.filter (inWindow (t - travel * 60 - tol) (t - travel * 60 + tol)),
      (attribute_event t idx travel tol).attributed_factory =
        Option.some r.factory_id ∧
      (∀ x ∈ idx.filter (inWindow (t - travel * 60 - tol) (t - travel * 60 + tol)),
        x.cod ≤ r.cod) ∧
      (∀ x ∈ idx.filter (inWindow (t - travel * 60 - tol) (t - travel * 60 + tol)),
        x.cod = r.cod → r.time ≤ x.time) := by
  cases hw : firstMaxCod
      (idx.filter (inWindow (t - travel * 60 - tol) (t - travel * 60 + tol))) with
  | none => exact absurd ((firstMaxCod_eq_none _).mp hw) hne
  | some best =>
    have hwin_sorted : List.Pairwise (fun a b => a.time ≤ b.time)
        (idx.filter (inWindow (t - travel * 60 - tol) (t - travel * 60 + tol))) :=
      hsorted.sublist (List.filter_sublist idx)
    obtain ⟨l1, l2, hsplit, hlt⟩ := firstMaxCod_first _ _ hw
    refine ⟨best, firstMaxCod_mem _ _ hw, ?_, firstMaxCod_le _ _ hw, ?_⟩
    · simp only [attribute_event]
      rw [hw]
    · intro x hx hcod
      rw [hsplit] at hx hwin_sorted
      rcases List.mem_append.mp hx with hx1 | hx2
      · exact absurd hcod (ne_of_lt (hlt x hx1))
      · rcases List.mem_cons.mp hx2 with hxr | hxl2
        · rw [hxr]
        · exact (List.pairwise_cons.mp
            (List.pairwise_append.mp hwin_sorted).2.1).1 x hxl2

/-- Witness for the amended C2 on the concrete two-row index. -/
theorem backtrack_c2_amended_witness :
    ∃ r ∈ exIdx.filter (inWindow (960 - 15 * 60 - 120) (960 - 15 * 60 + 120)),
      (attribute_event 960 exIdx 15 120).attributed_factory =
        Option.some r.factory_id ∧
      (∀ x ∈ exIdx.filter (inWindow (960 - 15 * 60 - 120) (960 - 15 * 60 + 120)),
        x.cod ≤ r.cod) ∧
      (∀ x ∈ exIdx.filter (inWindow (960 - 15 * 60 - 120) (960 - 15 * 60 + 120)),
        x.cod = r.cod → r.time ≤ x.time) :=
  backtrack_c2_amended 960 15 120 exIdx (by decide) (by decide)

end Backtrack

/-! ## Input validation — theorems (claim C3) -/

namespace Validation

/-- C3: `validate_record` is total (a Lean function — it cannot raise),
rejects with a non-empty reason exactly when one of the specification's
rejection conditions (`spec_rejects`) holds, and returns `(true, "")`
in every other case. -/
theorem validation_c3 (cfg : ValConfig) (r : Record) :
    ((validate_record cfg r).1 = false ↔ spec_rejects cfg r = true) ∧
    ((validate_record cfg r).1 = false → (validate_record cfg r).2 ≠ "") ∧
    ((validate_record cfg r).1 = true → (validate_record cfg r).2 = "") := by
  cases hm : first_matching_range cfg r.sensor_id.strVal with
  | none =>
    simp only [validate_record, spec_rejects, hm]
    split_ifs <;> simp_all
  | some bounds =>
    obtain ⟨v_min, v_max⟩ := bounds
    simp only [validate_record, spec_rejects, hm]
    split_ifs <;> simp_all

end Validation

/-! ## Alert router cooldown — theorems (claim C6) -/

namespace Alerts

/-- With a positive cooldown, once the store holds time `t` for point
`p`, every later emitted alert for `p` with a parseable timestamp is at
least `cooldown` seconds after `t`. -/
theorem process_future_sep (cooldown : Int) (parse : String → Option Int)
    (hc : 0 < cooldown) (rows : List AlertRow) (s : CooldownStore)
    (p : String) (t : Int) (hlast : s.last_alert p = Option.some t) :
    ∀ rd ∈ process cooldown parse s rows, rd.2 = true →
      rd.1.discharge_point_id = p →
      ∀ u, parse rd.1.timestamp = Option.some u → t + cooldown ≤ u := by
  induction rows generalizing s t with
  | nil => intro rd h; simp [process] at h
  | cons r rest ih =>
    intro rd hmem hdec hpt u hu
    simp only [process, List.mem_cons] at hmem
    rcases hmem with h | h
    · subst h
      simp only at hdec hpt hu
      simp only [step] at hdec
      split at hdec
      case isTrue hca =>
        rw [can_alert, if_neg (by omega), hpt, hu, hlast] at hca
        have := of_decide_eq_true hca
        omega
      case isFalse => simp at hdec
    · by_cases hca : can_alert cooldown parse s r.discharge_point_id r.timestamp
      · have hs1 : (step cooldown parse s r).1 =
            record_alert parse s r.discharge_point_id r.timestamp := by
          simp [step, hca]
        cases hpr : parse r.timestamp with
        | none =>
          have : (step cooldown parse s r).1.last_alert p = Option.some t := by
            rw [hs1, record_alert, hpr]; exact hlast
          exact ih _ t this rd h hdec hpt u hu
        | some v =>
          by_cases hpp : r.discharge_point_id = p
          · have hlast2 : s.last_alert r.discharge_point_id = Option.some t := by
              rw [hpp]; exact hlast
            rw [can_alert, if_neg (by omega), hpr, hlast2] at hca
            have htv : t + cooldown ≤ v := by
              have := of_decide_eq_true hca; omega
            have hnew : (step cooldown parse s r).1.last_alert p =
                Option.some v := by
              rw [hs1, record_alert, hpr]
              simp [hpp]
            have := ih _ v hnew rd h hdec hpt u hu
            omega
          · have : (step cooldown parse s r).1.last_alert p = Option.some t := by
              rw [hs1, record_alert, hpr]
              simp only
              rw [if_neg (fun he => hpp he.symm)]
              exact hlast
            exact ih _ t this rd h hdec hpt u hu
      · have hs1 : (step cooldown parse s r).1 = s := by simp [step, hca]
        exact ih _ t (by rw [hs1]; exact hlast) rd h hdec hpt u hu

/-- With a positive cooldown, the emitted parseable timestamps of any one
discharge point are pairwise separated by at least the cooldown, from any
starting store. -/
theorem pointTimes_pairwise (cooldown : Int) (parse : String → Option Int)
    (hc : 0 < cooldown) (p : String) (rows : List AlertRow)
    (s : CooldownStore) :
    (pointTimes cooldown parse p s rows).Pairwise
      (fun a b => a + cooldown ≤ b) := by
  induction rows generalizing s with
  | nil => simp [pointTimes, process]
  | cons r rest ih =>
    simp only [pointTimes, process, List.filterMap_cons]
    set d := (step cooldown parse s r).2 with hd
    by_cases hcontrib : d && (r.discharge_point_id == p)
    · rw [if_pos] ; swap
      · exact hcontrib
      cases hpr : parse r.timestamp with
      | none =>
        exact ih _
      | some v =>
        refine List.Pairwise.cons ?_ (ih _)
        intro b hb
        obtain ⟨rd, hrd, hfb⟩ := List.mem_filterMap.mp hb
        have hdecb : (rd.2 && rd.1.discharge_point_id == p) = true := by
          by_contra hcon
          rw [if_neg hcon] at hfb
          exact Option.noConfusion hfb
        rw [if_pos hdecb] at hfb
        have hd1 : rd.2 = true := ((Bool.and_eq_true _ _).mp hdecb).1
        have hd2 : rd.1.discharge_point_id = p :=
          beq_iff_eq.mp ((Bool.and_eq_true _ _).mp hdecb).2
        have hstep2 : (step cooldown parse s r).2 = true :=
          hd.symm.trans ((Bool.and_eq_true _ _).mp hcontrib).1
        have hca : can_alert cooldown parse s r.discharge_point_id
            r.timestamp = true := by
          by_contra hno
          simp only [step] at hstep2
          rw [if_neg hno] at hstep2
          simp at hstep2
        have hpp : r.discharge_point_id = p :=
          beq_iff_eq.mp ((Bool.and_eq_true _ _).mp hcontrib).2
        have hps : (step cooldown parse s r).1.last_alert p = Option.some v := by
          simp only [step]
          rw [if_pos hca]
          simp only [record_alert, hpr]
          simp [hpp]
        exact process_future_sep cooldown parse hc rest _ p v hps rd hrd
          hd1 hd2 b hfb
    · rw [if_neg] ; swap
      · exact fun hcon => hcontrib hcon
      exact ih _

/-- A row is always emitted when the cooldown is zero or its timestamp is
unparseable. -/
theorem process_pass_trivial (cooldown : Int) (parse : String → Option Int)
    (rows : List AlertRow) (s : CooldownStore) :
    ∀ rd ∈ process cooldown parse s rows,
      (cooldown = 0 ∨ parse rd.1.timestamp = Option.none) → rd.2 = true := by
  induction rows generalizing s with
  | nil => intro rd h; simp [process] at h
  | cons r rest ih =>
    intro rd hmem hcase
    simp only [process, List.mem_cons] at hmem
    rcases hmem with h | h
    · subst h
      simp only at hcase ⊢
      simp only [step]
      rcases hcase with h0 | hnp
      · rw [can_alert, if_pos h0]
        simp
      · rw [can_alert]
        split
        · simp
        · rw [hnp]
          simp
    · exact ih _ rd h hcase

/-- C6: with a positive cooldown, any two alerts the router emits for the
same discharge point with parseable timestamps are at least
ALERT_COOLDOWN_SECONDS apart (pairwise, in emission order); a cooldown of
0 disables suppression entirely; an alert whose timestamp does not parse
is never suppressed; and every emitted alert with a parseable timestamp
becomes the point's new last-alert time in the store. -/
theorem alerts_cooldown_c6 (cooldown : Int) (parse : String → Option Int)
    (rows : List AlertRow) (p : String) :
    (0 < cooldown → (emittedTimes cooldown parse p rows).Pairwise
      (fun a b => a + cooldown ≤ b)) ∧
    (cooldown = 0 →
      ∀ rd ∈ process cooldown parse CooldownStore.init rows, rd.2 = true) ∧
    (∀ rd ∈ process cooldown parse CooldownStore.init rows,
      parse rd.1.timestamp = Option.none → rd.2 = true) ∧
    (∀ (s : CooldownStore) (row : AlertRow) (t : Int),
      parse row.timestamp = Option.some t →
      (step cooldown parse s row).2 = true →
      (step cooldown parse s row).1.last_alert row.discharge_point_id =
        Option.some t) := by
  refine ⟨fun hc => pointTimes_pairwise cooldown parse hc p rows _,
    fun h0 rd hmem => process_pass_trivial cooldown parse rows _ rd hmem
      (Or.inl h0),
    fun rd hmem hnp => process_pass_trivial cooldown parse rows _ rd hmem
      (Or.inr hnp),
    fun s row t hpt hdec => ?_⟩
  simp only [step] at hdec ⊢
  split at hdec
  case isTrue hca =>
    rw [if_pos hca]
    simp [record_alert, hpt]
  case isFalse => simp at hdec

end Alerts

/-! ## Shared list-bound lemmas -/

/-- A left fold by `min` is below its seed and every folded element. -/
theorem foldl_min_le (xs : List ℚ) (a : ℚ) :
    xs.foldl min a ≤ a ∧ ∀ x ∈ xs, xs.foldl min a ≤ x := by
  induction xs generalizing a with
  | nil => simp
  | cons y ys ih =>
    refine ⟨(ih (min a y)).1.trans (min_le_left a y), ?_⟩
    intro x hx
    rcases List.mem_cons.mp hx with hxy | hxs
    · exact hxy ▸ (ih (min a y)).1.trans (min_le_right a y)
    · exact (ih (min a y)).2 x hxs

/-- A left fold by `max` is above its seed and every folded element. -/
theorem le_foldl_max (xs : List ℚ) (a : ℚ) :
    a ≤ xs.foldl max a ∧ ∀ x ∈ xs, x ≤ xs.foldl max a := by
  induction xs generalizing a with
  | nil => simp
  | cons y ys ih =>
    refine ⟨(le_max_left a y).trans (ih (max a y)).1, ?_⟩
    intro x hx
    rcases List.mem_cons.mp hx with hxy | hxs
    · exact hxy ▸ (le_max_right a y).trans (ih (max a y)).1
    · exact (ih (max a y)).2 x hxs

/-- `listMin` bounds every element from below. -/
theorem listMin_le (l : List ℚ) : ∀ x ∈ l, listMin l ≤ x := by
  cases l with
  | nil => simp
  | cons y ys =>
    intro x hx
    rcases List.mem_cons.mp hx with hxy | hxs
    · exact hxy ▸ (foldl_min_le ys y).1
    · exact (foldl_min_le ys y).2 x hxs

/-- `listMax` bounds every element from above. -/
theorem le_listMax (l : List ℚ) : ∀ x ∈ l, x ≤ listMax l := by
  cases l with
  | nil => simp
  | cons y ys =>
    intro x hx
    rcases List.mem_cons.mp hx with hxy | hxs
    · exact hxy ▸ (le_foldl_max ys y).1
    · exact (le_foldl_max ys y).2 x hxs

/-- A uniform lower bound on the elements bounds the sum from below. -/
theorem mul_card_le_sum (l : List ℚ) (m : ℚ) (h : ∀ x ∈ l, m ≤ x) :
    m * l.length ≤ l.sum := by
  induction l with
  | nil => simp
  | cons y ys ih =>
    have hy := h y (List.mem_cons_self y ys)
    have hys := ih (fun x hx => h x (List.mem_cons_of_mem y hx))
    simp only [List.sum_cons, List.length_cons]
    push_cast
    nlinarith

/-- A uniform upper bound on the elements bounds the sum from above. -/
theorem sum_le_mul_card (l : List ℚ) (m : ℚ) (h : ∀ x ∈ l, x ≤ m) :
    l.sum ≤ m * l.length := by
  induction l with
  | nil => simp
  | cons y ys ih =>
    have hy := h y (List.mem_cons_self y ys)
    have hys := ih (fun x hx => h x (List.mem_cons_of_mem y hx))
    simp only [List.sum_cons, List.length_cons]
    push_cast
    nlinarith

/-- The sum of a constant list. -/
theorem sum_of_const (l : List ℚ) (c : ℚ) (h : ∀ x ∈ l, x = c) :
    l.sum = c * l.length := by
  induction l with
  | nil => simp
  | cons y ys ih =>
    have hy := h y (List.mem_cons_self y ys)
    have hys := ih (fun x hx => h x (List.mem_cons_of_mem y hx))
    simp only [List.sum_cons, List.length_cons]
    push_cast
    nlinarith

/-! ## Windowed statistics — theorems (claim C7) -/

namespace WindowedStats

/-- C7: every emitted window satisfies min ≤ mean ≤ max and
sample_count ≥ 1, the derived std is at least ε, and a window of
constant readings yields std exactly ε. -/
theorem windowed_stats_c7 (l : List ℚ) (hne : l ≠ []) (eps : ℝ) :
    (build_windowed_aggregates l).wmin ≤ (build_windowed_aggregates l).mean ∧
    (build_windowed_aggregates l).mean ≤ (build_windowed_aggregates l).wmax ∧
    1 ≤ (build_windowed_aggregates l).sample_count ∧
    eps ≤ population_std ((build_windowed_aggregates l).mean : ℝ)
      ((build_windowed_aggregates l).mean_sq : ℝ) eps ∧
    ((∀ x ∈ l, x = l.headD 0) →
      population_std ((build_windowed_aggregates l).mean : ℝ)
        ((build_windowed_aggregates l).mean_sq : ℝ) eps = eps) := by
  have hn : (0 : ℚ) < l.length := by
    exact_mod_cast List.length_pos.mpr hne
  refine ⟨?_, ?_, ?_, ?_, ?_⟩
  · simp only [build_windowed_aggregates]
    rw [le_div_iff₀ hn]
    exact mul_card_le_sum l (listMin l) (listMin_le l)
  · simp only [build_windowed_aggregates]
    rw [div_le_iff₀ hn]
    have := sum_le_mul_card l (listMax l) (le_listMax l)
    linarith
  · simp only [build_windowed_aggregates]
    exact List.length_pos.mpr hne
  · simp only [population_std]
    have := Real.sqrt_nonneg
      (max 0 (((build_windowed_aggregates l).mean_sq : ℝ) -
        ((build_windowed_aggregates l).mean : ℝ) *
          ((build_windowed_aggregates l).mean : ℝ)))
    linarith
  · intro hconst
    have hc := l.headD 0
    have hsum : l.sum = l.headD 0 * l.length := sum_of_const l _ hconst
    have hsumsq : (l.map (fun x => x * x)).sum =
        (l.headD 0 * l.headD 0) * l.length := by
      have := sum_of_const (l.map (fun x => x * x)) (l.headD 0 * l.headD 0)
        (by
          intro y hy
          obtain ⟨x, hx, hxy⟩ := List.mem_map.mp hy
          rw [← hxy, hconst x hx])
      rw [this, List.length_map]
    have hmean : (build_windowed_aggregates l).mean = l.headD 0 := by
      simp only [build_windowed_aggregates]
      rw [hsum]
      field_simp
    have hmeansq : (build_windowed_aggregates l).mean_sq =
        l.headD 0 * l.headD 0 := by
      simp only [build_windowed_aggregates]
      rw [hsumsq]
      field_simp
    rw [hmean, hmeansq, population_std]
    push_cast
    rw [sub_self, max_self, Real.sqrt_zero, zero_add]

/-- Witness for C7 at the constant window [5, 5] with ε = 1/1000. -/
theorem windowed_stats_c7_witness :
    (build_windowed_aggregates [5, 5]).wmin ≤
      (build_windowed_aggregates [5, 5]).mean ∧
    (build_windowed_aggregates [5, 5]).mean ≤
      (build_windowed_aggregates [5, 5]).wmax ∧
    1 ≤ (build_windowed_aggregates [5, 5]).sample_count ∧
    (1 / 1000 : ℝ) ≤ population_std ((build_windowed_aggregates [5, 5]).mean : ℝ)
      ((build_windowed_aggregates [5, 5]).mean_sq : ℝ) (1 / 1000) ∧
    ((∀ x ∈ ([5, 5] : List ℚ), x = ([5, 5] : List ℚ).headD 0) →
      population_std ((build_windowed_aggregates [5, 5]).mean : ℝ)
        ((build_windowed_aggregates [5, 5]).mean_sq : ℝ) (1 / 1000) = 1 / 1000) :=
  windowed_stats_c7 [5, 5] (by decide) (1 / 1000)

end WindowedStats

/-! ## ERI risk bands — theorems (claim C8) -/

namespace Eri

/-- Unfolding of `classify_eri` on the three configured thresholds. -/
theorem classify_eri_eq (low med high e : ℚ) :
    classify_eri (eriThresholds low med high) e =
      if e < low then "LOW"
      else if e < med then "MEDIUM"
      else if e < high then "HIGH"
      else "CRITICAL" := by
  simp [classify_eri, eriThresholds]

/-- C8: with strictly ascending thresholds, risk-band classification is
monotone in the rank order LOW < MEDIUM < HIGH < CRITICAL, and follows
the piecewise characterisation of the specification. -/
theorem eri_c8 (low med high : ℚ) (h1 : low < med) (h2 : med < high)
    (a b : ℚ) (hab : a ≤ b) :
    rank (classify_eri (eriThresholds low med high) a) ≤
      rank (classify_eri (eriThresholds low med high) b) ∧
    (∀ e : ℚ,
      (e < low → classify_eri (eriThresholds low med high) e = "LOW") ∧
      (low ≤ e → e < med →
        classify_eri (eriThresholds low med high) e = "MEDIUM") ∧
      (med ≤ e → e < high →
        classify_eri (eriThresholds low med high) e = "HIGH") ∧
      (high ≤ e → classify_eri (eriThresholds low med high) e = "CRITICAL")) := by
  constructor
  · rw [classify_eri_eq, classify_eri_eq]
    split_ifs <;> first | decide | linarith
  · intro e
    rw [classify_eri_eq]
    refine ⟨fun h => by rw [if_pos h], fun hl hm => ?_, fun hm hh => ?_,
      fun hh => ?_⟩
    · rw [if_neg (not_lt.mpr hl), if_pos hm]
    · rw [if_neg (by linarith), if_neg (not_lt.mpr hm), if_pos hh]
    · rw [if_neg (by linarith), if_neg (by linarith), if_neg (not_lt.mpr hh)]

/-- Witness for C8 with thresholds 1 < 2 < 3 and values 0 ≤ 5. -/
theorem eri_c8_witness :
    rank (classify_eri (eriThresholds 1 2 3) 0) ≤
      rank (classify_eri (eriThresholds 1 2 3) 5) ∧
    (∀ e : ℚ,
      (e < 1 → classify_eri (eriThresholds 1 2 3) e = "LOW") ∧
      (1 ≤ e → e < 2 → classify_eri (eriThresholds 1 2 3) e = "MEDIUM") ∧
      (2 ≤ e → e < 3 → classify_eri (eriThresholds 1 2 3) e = "HIGH") ∧
      (3 ≤ e → classify_eri (eriThresholds 1 2 3) e = "CRITICAL")) :=
  eri_c8 1 2 3 (by norm_num) (by norm_num) 0 5 (by norm_num)

end Eri

/-! ## Attribution formatter — theorems (claim C9) -/

namespace Attribution

/-- Dividing each mapped value by a constant divides the sum. -/
theorem sum_map_div (l : List (String × ℚ)) (f : String × ℚ → ℚ) (T : ℚ) :
    (l.map (fun x => f x / T)).sum = (l.map f).sum / T := by
  induction l with
  | nil => simp
  | cons y ys ih => simp [ih, add_div]

/-- `compute_fractions` keeps the sensor ids and the list length. -/
theorem compute_fractions_length (zs : List (String × ℚ)) :
    (compute_fractions zs).length = zs.length := by
  simp only [compute_fractions]
  split <;> simp

/-- The head of the descending sort is a maximal pair of the input. -/
theorem top_is_max (fr : List (String × ℚ)) (hne : fr ≠ []) :
    top_contributor (sort_descending fr) ∈ fr ∧
    ∀ q ∈ fr, q.2 ≤ (top_contributor (sort_descending fr)).2 := by
  have hperm := List.perm_insertionSort fracGe fr
  have hsorted := List.sorted_insertionSort fracGe fr
  cases hs : List.insertionSort fracGe fr with
  | nil =>
    exfalso
    apply hne
    rw [hs] at hperm
    exact hperm.symm.eq_nil
  | cons h t =>
    rw [hs] at hperm hsorted
    have hmem : h ∈ fr := hperm.mem_iff.mp (List.mem_cons_self h t)
    have htop : top_contributor (sort_descending fr) = h := by
      simp [top_contributor, sort_descending, hs]
    refine ⟨htop ▸ hmem, ?_⟩
    intro q hq
    rw [htop]
    rcases List.mem_cons.mp (hperm.mem_iff.mpr hq) with h1 | h2
    · rw [h1]
    · exact (List.pairwise_cons.mp hsorted).1 q h2

/-- C9: `format_alert` computes each sensor's fraction as z²/Σz²
(equal fractions when the sum of squares is zero), the unrounded
fractions sum to 1 on a non-empty map, the top contributor carries a
maximal fraction, the empty map yields an empty top contributor, and the
whole input row is forwarded unchanged (the function is pure). -/
theorem attribution_c9 (row : GroupRow) :
    ((row.sensor_z_scores.map (fun p => p.2 * p.2)).sum ≠ 0 →
      compute_fractions row.sensor_z_scores =
        row.sensor_z_scores.map (fun p =>
          (p.1, p.2 * p.2 / (row.sensor_z_scores.map (fun q => q.2 * q.2)).sum))) ∧
    ((row.sensor_z_scores.map (fun p => p.2 * p.2)).sum = 0 →
      row.sensor_z_scores ≠ [] →
      compute_fractions row.sensor_z_scores =
        row.sensor_z_scores.map (fun p =>
          (p.1, (1 : ℚ) / row.sensor_z_scores.length))) ∧
    (row.sensor_z_scores ≠ [] →
      ((compute_fractions row.sensor_z_scores).map Prod.snd).sum = 1) ∧
    (row.sensor_z_scores ≠ [] →
      ∃ p ∈ compute_fractions row.sensor_z_scores,
        (format_alert row).top_contributor = p.1 ∧
        ∀ q ∈ compute_fractions row.sensor_z_scores, q.2 ≤ p.2) ∧
    (row.sensor_z_scores = [] → (format_alert row).top_contributor = "") ∧
    (format_alert row).row = row := by
  have hmapmap : ∀ (zs : List (String × ℚ)),
      ((zs.map (fun p => (p.1, p.2 * p.2))).map Prod.snd) =
        zs.map (fun p => p.2 * p.2) := by
    intro zs
    rw [List.map_map]
    rfl
  refine ⟨?_, ?_, ?_, ?_, ?_, rfl⟩
  · intro hT
    simp only [compute_fractions, hmapmap]
    rw [if_neg hT, List.map_map]
    rfl
  · intro hT hne
    have hpos : 0 < row.sensor_z_scores.length := List.length_pos.mpr hne
    simp only [compute_fractions, hmapmap]
    rw [if_pos hT, List.map_map]
    have : ∀ p : String × ℚ,
        ((fun p => (p.1,
            if 0 < (row.sensor_z_scores.map
                (fun p => (p.1, p.2 * p.2))).length then
              (1 : ℚ) / (row.sensor_z_scores.map
                (fun p => (p.1, p.2 * p.2))).length
            else 0)) ∘ (fun p => (p.1, p.2 * p.2))) p =
          (p.1, (1 : ℚ) / row.sensor_z_scores.length) := by
      intro p
      simp [Function.comp, List.length_map, hpos]
    exact List.map_congr_left (fun p _ => this p)
  · intro hne
    have hpos : 0 < row.sensor_z_scores.length := List.length_pos.mpr hne
    by_cases hT : (row.sensor_z_scores.map (fun p => p.2 * p.2)).sum = 0
    · simp only [compute_fractions, hmapmap]
      rw [if_pos hT, List.map_map, List.map_map]
      have hconst : (row.sensor_z_scores.map
          ((Prod.snd ∘ fun p => (p.1,
            if 0 < (row.sensor_z_scores.map
                (fun p => (p.1, p.2 * p.2))).length then
              (1 : ℚ) / (row.sensor_z_scores.map
                (fun p => (p.1, p.2 * p.2))).length
            else 0)) ∘ (fun p => (p.1, p.2 * p.2)))) =
          row.sensor_z_scores.map
            (fun _ => (1 : ℚ) / row.sensor_z_scores.length) := by
        refine List.map_congr_left (fun p _ => ?_)
        simp [Function.comp, List.length_map, hpos]
      rw [hconst]
      rw [sum_of_const _ ((1 : ℚ) / row.sensor_z_scores.length)
        (by
          intro x hx
          obtain ⟨y, _, hxy⟩ := List.mem_map.mp hx
          exact hxy.symm), List.length_map]
      exact one_div_mul_cancel (by exact_mod_cast hpos.ne')
    · simp only [compute_fractions, hmapmap]
      rw [if_neg hT, List.map_map, List.map_map]
      have hdiv : (row.sensor_z_scores.map
          ((Prod.snd ∘ fun p =>
            (p.1, p.2 / (row.sensor_z_scores.map (fun q => q.2 * q.2)).sum)) ∘
              (fun p => (p.1, p.2 * p.2)))) =
          row.sensor_z_scores.map (fun p =>
            (fun q : String × ℚ => q.2 * q.2) p /
              (row.sensor_z_scores.map (fun q => q.2 * q.2)).sum) := by
        refine List.map_congr_left (fun p _ => ?_)
        simp [Function.comp]
      rw [hdiv, sum_map_div, div_self hT]
  · intro hne
    have hfne : compute_fractions row.sensor_z_scores ≠ [] := by
      intro h
      have := compute_fractions_length row.sensor_z_scores
      rw [h] at this
      exact hne (List.length_eq_zero.mp this.symm)
    obtain ⟨hmem, hmax⟩ := top_is_max (compute_fractions row.sensor_z_scores) hfne
    exact ⟨top_contributor
      (sort_descending (compute_fractions row.sensor_z_scores)), hmem, rfl, hmax⟩
  · intro hempty
    simp [format_alert, compute_fractions, sort_descending, top_contributor,
      hempty, List.insertionSort]

end Attribution

/-! ## Latency metrics — theorems (claim C10) -/

namespace Metrics

/-- An in-range `getD` lookup is a member of the list. -/
theorem getD_mem (l : List ℚ) (i : ℕ) (h : i < l.length) : l.getD i 0 ∈ l := by
  rw [List.getD_eq_getElem l 0 h]
  exact List.getElem_mem h

/-- `headD` is the lookup at index 0. -/
theorem headD_eq_getD (l : List ℚ) : l.headD 0 = l.getD 0 0 := by
  cases l <;> rfl

/-- C10: `compute_percentile` is total over its inputs: 0.0 on the empty
sequence for every percentile, the element itself on a singleton, and
for every non-empty sequence and percentile in [0, 100] the interpolated
result lies between the minimum and the maximum of the sequence. -/
theorem metrics_c10 (data : List ℚ) (p : ℚ) :
    compute_percentile [] p = 0 ∧
    (∀ x : ℚ, compute_percentile [x] p = x) ∧
    (data ≠ [] → 0 ≤ p → p ≤ 100 →
      listMin data ≤ compute_percentile data p ∧
      compute_percentile data p ≤ listMax data) := by
  refine ⟨by simp [compute_percentile], ?_, ?_⟩
  · intro x
    simp [compute_percentile, List.insertionSort, List.orderedInsert]
  · intro hne hp0 hp100
    have hperm := List.perm_insertionSort ((· ≤ ·) : ℚ → ℚ → Prop) data
    have hmemD : ∀ i : ℕ, i < (List.insertionSort (· ≤ ·) data).length →
        (List.insertionSort (· ≤ ·) data).getD i 0 ∈ data := by
      intro i hi
      exact hperm.mem_iff.mp (getD_mem _ i hi)
    have hbound : ∀ x ∈ data, listMin data ≤ x ∧ x ≤ listMax data :=
      fun x hx => ⟨listMin_le data x hx, le_listMax data x hx⟩
    have hlenpos : 0 < (List.insertionSort (· ≤ ·) data).length := by
      rw [hperm.length_eq]
      exact List.length_pos.mpr hne
    simp only [compute_percentile]
    rw [if_neg hne]
    by_cases h1 : (List.insertionSort (· ≤ ·) data).length = 1
    · rw [if_pos h1, headD_eq_getD]
      exact hbound _ (hmemD 0 hlenpos)
    · rw [if_neg h1]
      have hn2 : 2 ≤ (List.insertionSort (· ≤ ·) data).length := by omega
      have hnQ : (2 : ℚ) ≤ ((List.insertionSort (· ≤ ·) data).length : ℚ) := by
        exact_mod_cast hn2
      set k := p / 100 *
        (((List.insertionSort (· ≤ ·) data).length : ℚ) - 1) with hk
      have hk0 : 0 ≤ k := by
        apply mul_nonneg (div_nonneg hp0 (by norm_num))
        linarith
      have hk1 : k ≤ ((List.insertionSort (· ≤ ·) data).length : ℚ) - 1 := by
        have hple : p / 100 ≤ 1 := (div_le_one (by norm_num)).mpr hp100
        rw [hk]
        nlinarith
      have hpy : pyInt k = ⌊k⌋ := by simp [pyInt, hk0]
      have hlo0 : 0 ≤ ⌊k⌋ := Int.floor_nonneg.mpr hk0
      have hloN : ⌊k⌋ ≤ ((List.insertionSort (· ≤ ·) data).length : ℤ) - 1 := by
        have hfle : ⌊k⌋ ≤
            ⌊((List.insertionSort (· ≤ ·) data).length : ℚ) - 1⌋ :=
          Int.floor_le_floor hk1
        rwa [show (((List.insertionSort (· ≤ ·) data).length : ℚ) - 1) =
            ((((List.insertionSort (· ≤ ·) data).length : ℤ) - 1 : ℤ) : ℚ) by
          push_cast; ring, Int.floor_intCast] at hfle
      have hf0 : 0 ≤ k - (⌊k⌋ : ℚ) := by linarith [Int.floor_le k]
      have hf1 : k - (⌊k⌋ : ℚ) ≤ 1 := by linarith [Int.lt_floor_add_one k]
      have hlo_lt : (⌊k⌋).toNat < (List.insertionSort (· ≤ ·) data).length := by
        omega
      have hhi_lt : (min (⌊k⌋ + 1)
          (((List.insertionSort (· ≤ ·) data).length : ℤ) - 1)).toNat <
            (List.insertionSort (· ≤ ·) data).length := by
        omega
      have ha := hbound _ (hmemD _ hlo_lt)
      have hb := hbound _ (hmemD _ hhi_lt)
      rw [hpy]
      constructor
      · nlinarith [mul_nonneg (sub_nonneg.mpr ha.1)
            (by linarith : (0 : ℚ) ≤ 1 - (k - (⌊k⌋ : ℚ))),
          mul_nonneg (sub_nonneg.mpr hb.1) hf0]
      · nlinarith [mul_nonneg (sub_nonneg.mpr ha.2)
            (by linarith : (0 : ℚ) ≤ 1 - (k - (⌊k⌋ : ℚ))),
          mul_nonneg (sub_nonneg.mpr hb.2) hf0]

end Metrics

end ShieldAI
